import Mathlib

/-!
Verification of the NWGraph `parallel_for` dispatch engine
(`src/include/nwgraph/util/parallel_for.hpp`): the element-shape
resolver `parallel_for_inner`, the sequential traversal and reduction
loops `parallel_for_sequential`, and the divisibility- and size-gated
routers `parallel_for` and `parallel_reduce` for the TBB / HPX / no-backend
build configurations.

Shallow embedding conventions:
  * An element of a range is an `Elem`: an integral scalar, a string-like
    opaque value (usable only as a tuple field), a tuple-like aggregate,
    or an indirect (iterator/pointer-like) handle whose dereference yields
    the wrapped element.  These are exactly the structural categories the
    C++ dispatch distinguishes with `is_tuple_v`, `std::is_integral_v`
    and `operator*`.
  * An operator is a function `List Elem → T`: the list it receives is the
    positional-argument list of one invocation, so the theorems can speak
    about exactly which arguments an invocation passes.
  * Shapes the C++ template would reject at compile time (a value that is
    neither tuple, integral, nor dereferenceable reaching the dereference
    branch) are modelled by `Option`: `none` is a build-time contract
    violation, never a runtime result.
  * The external backends (TBB, HPX) are collaborators outside this
    repository; their partitioning choice is a parameter `chunks`, and
    their merge phases are modelled by `tbb_join` / `hpx_generalized_sum`.
-/

namespace NwGraph

/-- Structural categories of a range element, as distinguished by the
dispatch in `parallel_for_inner` (parallel_for.hpp lines 42-55):
`scalar` is an integral value (`std::is_integral_v`), `tup` is a
tuple-like aggregate (`is_tuple_v`, declared in nwgraph/util/traits.hpp,
which is outside the inspected sources and is modelled structurally by
this constructor), `ind` is an iterator/pointer-like handle dereferencing
to the wrapped element, and `str` is an opaque non-integral,
non-tuple, non-dereferenceable value (e.g. a string) that can only occur
as a tuple field. -/
inductive Elem where
  | scalar : Int → Elem
  | str : String → Elem
  | tup : List Elem → Elem
  | ind : Elem → Elem
deriving Repr

/-- Whether an element is a tuple-like aggregate: the `is_tuple_v` test
used at lines 44 and 49 of parallel_for.hpp. -/
def Elem.isTuple : Elem → Bool
  | Elem.tup _ => true
  | _ => false

/-- The Shape Resolver, `parallel_for_inner` (parallel_for.hpp lines
42-55).  Dispatch order is the source's: tuple-like values are unpacked
with `std::apply` into one positional argument per field (line 45);
integral values are passed as the single argument (line 47); anything
else is dereferenced once, and the pointee is either recursed on when it
is a tuple (line 50) or passed as the single argument (line 52).  A shape
with no dereference (`str`) makes the C++ `*i` ill-formed: `none`. -/
def parallel_for_inner {T : Type} (op : List Elem → T) : Elem → Option T
  | Elem.tup fields => some (op fields)
  | Elem.scalar n => some (op [Elem.scalar n])
  | Elem.str _ => none
  | Elem.ind inner =>
      if inner.isTuple then parallel_for_inner op inner
      else some (op [inner])

/-- One per-position invocation of the sequential loops (parallel_for.hpp
lines 66-67 and 88-89): the Shape Resolver applied to the iterator at the
position, an indirect handle whose dereference is the element there. -/
def seq_invoke {T : Type} (op : List Elem → T) (e : Elem) : Option T :=
  parallel_for_inner op (Elem.ind e)

/-- The per-element callable the HPX reduction path hands to
`transform_reduce` (parallel_for.hpp lines 154-158): HPX has already
dereferenced the iterator, so the callable takes the address of the
element — an indirect handle whose dereference is the element — and
hands it to the Shape Resolver. -/
def hpx_transform {T : Type} (op : List Elem → T) (e : Elem) : Option T :=
  parallel_for_inner op (Elem.ind e)

/-- A range (spec section 3): an ordered traversal sequence of elements
together with its self-reported divisibility flag.  The engine only
borrows it; `elems` is the begin-to-end traversal order. -/
structure Range where
  elems : List Elem
  divisible : Bool

/-- The range's divisibility self-assessment, `range.is_divisible()`. -/
def Range.is_divisible (r : Range) : Bool :=
  r.divisible

/-- The range's element count, `range.size()`, used by the HPX reduction
gate (parallel_for.hpp line 150). -/
def Range.size (r : Range) : Nat :=
  r.elems.length

/-- Which parallel backend the build configuration compiled in:
`NWGRAPH_HAVE_TBB`, `NWGRAPH_HAVE_HPX`, or neither. -/
inductive Cfg where
  | tbb : Cfg
  | hpx : Cfg
  | nobackend : Cfg
deriving DecidableEq, Repr

/-- The sequential traversal loop `parallel_for_sequential` (lines
64-69): visit the traversal sequence in order, calling the Shape
Resolver on the iterator at each position; the returned list is the
per-position invocation results in traversal order. -/
def parallel_for_sequential {T : Type} (elems : List Elem) (op : List Elem → T) :
    List (Option T) :=
  elems.map (fun e => seq_invoke op e)

/-- The sequential reduction loop, the reducing overload of
`parallel_for_sequential` (lines 85-92): the accumulator starts at
`init` and at each position becomes
`reduce(acc, parallel_for_inner(op, i))`, in traversal order. -/
def parallel_for_sequential_reduce {T : Type} (elems : List Elem) (op : List Elem → T)
    (reduce : T → T → T) (init : T) : Option T :=
  elems.foldlM (fun acc e => (seq_invoke op e).map (fun v => reduce acc v)) init

/-- Model of the join phase of `tbb::parallel_reduce` for one concrete
partition: each sub-range body starts from the seed value, and the
bodies' results are joined left to right with `reduce`; an empty
partition of an empty range yields the seed. -/
def tbb_join {T : Type} (reduce : T → T → T) (init : T) : List T → T
  | [] => init
  | p :: ps => ps.foldl reduce p

/-- Left fold of one non-empty block of already-transformed values, as a
parallel backend combines the values of one block; an empty block
contributes nothing. -/
def block_sum {T : Type} (reduce : T → T → T) : List T → Option T
  | [] => none
  | v :: vs => some (vs.foldl reduce v)

/-- Model of `hpx::ranges::transform_reduce`'s generalized sum for one
concrete partition of the transformed values into blocks: each non-empty
block is folded left to right, and `init` is combined left to right with
the block sums, so `init` enters the sum exactly once. -/
def hpx_generalized_sum {T : Type} (reduce : T → T → T) (init : T)
    (vals : List (List T)) : T :=
  (vals.filterMap (fun c => block_sum reduce c)).foldl reduce init

/-- The iteration router `parallel_for` (lines 106-119).  The single
dynamic gate is `range.is_divisible()` (line 108).  When divisible:
under TBB the backend runs `parallel_for_sequential` on each sub-range
of its partition (lines 110-111); under HPX, `hpx::ranges::for_each`
applies `op` directly to each element (lines 113-114), i.e. one
invocation with the element as the single argument, without the Shape
Resolver; with no backend compiled in, the branch is empty and nothing
runs.  When not divisible: the sequential loop on the whole range.  The
result is the list of operator-invocation results the call performs. -/
def parallel_for {T : Type} (cfg : Cfg) (chunks : List (List Elem)) (range : Range)
    (op : List Elem → T) : List (Option T) :=
  if range.is_divisible then
    match cfg with
    | Cfg.tbb => (chunks.map (fun sub => parallel_for_sequential sub op)).flatten
    | Cfg.hpx => range.elems.map (fun e => some (op [e]))
    | Cfg.nobackend => []
  else
    parallel_for_sequential range.elems op

/-- The reduction router `parallel_reduce` (lines 139-177).  Under TBB
(lines 141-148) the gate is `range.is_divisible()`: when divisible, each
sub-range of the backend's partition is reduced by the sequential loop
from the seed `init` and the partials are joined with `reduce`;
otherwise the sequential loop runs on the whole range.  Under HPX (lines
149-175) the gate is `range.size() > 128`: above the threshold,
`transform_reduce` maps `hpx_transform` over the elements and combines
the values and `init` in a backend-determined grouping; at or below it,
the sequential loop runs.  With no backend compiled in, the function
body is empty and produces no value. -/
def parallel_reduce {T : Type} (cfg : Cfg) (chunks : List (List Elem)) (range : Range)
    (op : List Elem → T) (reduce : T → T → T) (init : T) : Option T :=
  match cfg with
  | Cfg.tbb =>
      if range.is_divisible then
        (chunks.mapM (fun sub => parallel_for_sequential_reduce sub op reduce init)).map
          (fun ps => tbb_join reduce init ps)
      else
        parallel_for_sequential_reduce range.elems op reduce init
  | Cfg.hpx =>
      if range.size > 128 then
        (chunks.mapM (fun sub => List.mapM (fun e => hpx_transform op e) sub)).map
          (fun vals => hpx_generalized_sum reduce init vals)
      else
        parallel_for_sequential_reduce range.elems op reduce init
  | Cfg.nobackend => none

/-- Modelled from the spec: "direct operator application" of a plain
ordered traversal (spec sections 8 and 4.1) — the operator applied
directly to each element, a tuple-like element supplying its fields as
the positional arguments and any other element passed as the single
argument. -/
def direct_apply {T : Type} (op : List Elem → T) : Elem → T
  | Elem.tup fields => op fields
  | e => op [e]

/-- Modelled from the spec: "a plain ordered traversal with direct
operator application" (spec section 8) — every element, in traversal
order, receives one direct operator application. -/
def plain_ordered_traversal {T : Type} (op : List Elem → T) (elems : List Elem) :
    List (Option T) :=
  elems.map (fun e => some (direct_apply op e))

/-- Modelled from the spec: the strict left fold of section 4.3 — the
accumulator starts at `init`, the traversal is in order, and at each
position the accumulator becomes
`reduce(accumulator, invoke_adapted(op, iterator_at_position))`, where
`invoke_adapted` on an iterator dereferences once and then unpacks a
tuple or passes the value as the single argument. -/
def spec_left_fold {T : Type} (op : List Elem → T) (reduce : T → T → T) (init : T)
    (elems : List Elem) : T :=
  elems.foldl (fun acc e => reduce acc (direct_apply op e)) init

/-! Support lemmas. -/

/-- The Shape Resolver on an indirect handle always resolves: it
dereferences once and then performs the direct application. -/
theorem seq_invoke_eq {T : Type} (op : List Elem → T) (e : Elem) :
    seq_invoke op e = some (direct_apply op e) := by
  cases e <;> simp [seq_invoke, parallel_for_inner, Elem.isTuple, direct_apply]

/-- The sequential traversal performs exactly the plain ordered
traversal with direct operator application. -/
theorem parallel_for_sequential_eq {T : Type} (op : List Elem → T) (elems : List Elem) :
    parallel_for_sequential elems op = plain_ordered_traversal op elems := by
  simp [parallel_for_sequential, plain_ordered_traversal, seq_invoke_eq]

/-- The sequential reduction loop computes the spec's strict left fold. -/
theorem parallel_for_sequential_reduce_eq {T : Type} (op : List Elem → T)
    (reduce : T → T → T) (init : T) (elems : List Elem) :
    parallel_for_sequential_reduce elems op reduce init
      = some (spec_left_fold op reduce init elems) := by
  induction elems generalizing init with
  | nil => rfl
  | cons e es ih =>
      simp [parallel_for_sequential_reduce, spec_left_fold, seq_invoke_eq,
        Option.bind] at ih ⊢
      exact ih (reduce init (direct_apply op e))

/-- Mapping an everywhere-defined effectful function over a list in the
`Option` monad is the plain map. -/
theorem list_mapM_some {α β : Type} (f : α → β) (l : List α) :
    l.mapM (fun a => (some (f a) : Option β)) = some (l.map f) := by
  induction l with
  | nil => rfl
  | cons a l ih => rw [List.mapM_cons, ih]; rfl

/-- Folding from a combined seed `reduce a b` is combining `a` with the
fold from `b`, for associative `reduce`. -/
theorem foldl_assoc_hom {T : Type} (reduce : T → T → T)
    (hassoc : ∀ a b c, reduce (reduce a b) c = reduce a (reduce b c))
    (l : List T) (a b : T) :
    l.foldl reduce (reduce a b) = reduce a (l.foldl reduce b) := by
  induction l generalizing b with
  | nil => rfl
  | cons v vs ih => simp [List.foldl_cons, hassoc, ih]

/-- For associative `reduce` with `init` a two-sided identity, combining
an accumulator with a block folded from `init` is folding the block from
the accumulator. -/
theorem seeded_block_foldl {T : Type} (reduce : T → T → T) (init : T)
    (hassoc : ∀ a b c, reduce (reduce a b) c = reduce a (reduce b c))
    (hleft : ∀ a, reduce init a = a) (hright : ∀ a, reduce a init = a)
    (d : List T) (a : T) :
    reduce a (d.foldl reduce init) = d.foldl reduce a := by
  cases d with
  | nil => simpa using hright a
  | cons w ws =>
      simp only [List.foldl_cons, hleft]
      exact (foldl_assoc_hom reduce hassoc ws a w).symm

/-- For associative `reduce` with identity `init`, folding the
`init`-seeded block values of a partition from any accumulator is
folding the concatenation of the blocks. -/
theorem seeded_blocks_foldl {T : Type} (reduce : T → T → T) (init : T)
    (hassoc : ∀ a b c, reduce (reduce a b) c = reduce a (reduce b c))
    (hleft : ∀ a, reduce init a = a) (hright : ∀ a, reduce a init = a)
    (cs : List (List T)) (a : T) :
    (cs.map (fun c => c.foldl reduce init)).foldl reduce a
      = cs.flatten.foldl reduce a := by
  induction cs generalizing a with
  | nil => rfl
  | cons d ds ih =>
      simp only [List.map_cons, List.foldl_cons, List.flatten_cons, List.foldl_append]
      rw [seeded_block_foldl reduce init hassoc hleft hright d a, ih]

/-- The TBB join model agrees with the single left fold of the
concatenated partition, for associative `reduce` with identity seed. -/
theorem tbb_join_eq {T : Type} (reduce : T → T → T) (init : T)
    (hassoc : ∀ a b c, reduce (reduce a b) c = reduce a (reduce b c))
    (hleft : ∀ a, reduce init a = a) (hright : ∀ a, reduce a init = a)
    (chunks : List (List T)) :
    tbb_join reduce init (chunks.map (fun c => c.foldl reduce init))
      = chunks.flatten.foldl reduce init := by
  cases chunks with
  | nil => rfl
  | cons c cs =>
      simp only [List.map_cons, tbb_join, List.flatten_cons, List.foldl_append]
      exact seeded_blocks_foldl reduce init hassoc hleft hright cs (c.foldl reduce init)

/-- The HPX generalized-sum model agrees with the single left fold of
the concatenated partition, for associative `reduce`. -/
theorem hpx_generalized_sum_eq {T : Type} (reduce : T → T → T) (init : T)
    (hassoc : ∀ a b c, reduce (reduce a b) c = reduce a (reduce b c))
    (vals : List (List T)) :
    hpx_generalized_sum reduce init vals = vals.flatten.foldl reduce init := by
  suffices h : ∀ (vs : List (List T)) (a : T),
      (vs.filterMap (fun c => block_sum reduce c)).foldl reduce a
        = vs.flatten.foldl reduce a from h vals init
  intro vs
  induction vs with
  | nil => intro a; rfl
  | cons c cs ih =>
      intro a
      cases c with
      | nil => simpa [List.filterMap_cons, block_sum] using ih a
      | cons v vvs =>
          have hfm : List.filterMap (fun c => block_sum reduce c) ((v :: vvs) :: cs)
              = (vvs.foldl reduce v) :: List.filterMap (fun c => block_sum reduce c) cs := by
            simp [List.filterMap_cons, block_sum]
          rw [hfm, List.foldl_cons, ih, List.flatten_cons, List.foldl_append,
            List.foldl_cons]
          exact congrArg (fun x => List.foldl reduce x cs.flatten)
            (foldl_assoc_hom reduce hassoc vvs a v).symm

/-- On an indirect handle whose pointee is not tuple-like, the Shape
Resolver dereferences once and passes the pointee as the single
argument. -/
theorem seq_invoke_nontuple {T : Type} (op : List Elem → T) (e : Elem)
    (h : e.isTuple = false) :
    seq_invoke op e = some (op [e]) := by
  simp [seq_invoke, parallel_for_inner, h]

/-- The HPX reduction's address-wrapping transform always resolves to
the direct application, like the sequential path's iterator invocation. -/
theorem hpx_transform_eq {T : Type} (op : List Elem → T) (e : Elem) :
    hpx_transform op e = some (direct_apply op e) :=
  seq_invoke_eq op e

/-- The spec left fold is the plain fold of the direct applications. -/
theorem spec_left_fold_eq_foldl_map {T : Type} (op : List Elem → T)
    (reduce : T → T → T) (init : T) (elems : List Elem) :
    spec_left_fold op reduce init elems
      = (elems.map (fun e => direct_apply op e)).foldl reduce init := by
  simp [spec_left_fold, List.foldl_map]

/-! Claim theorems. -/

/-- Claim C3: for every Tuple-like element of arity N, the Shape
Resolver invokes the operator with exactly N positional arguments equal
to the tuple's fields in their declared order — both on the tuple value
itself and through an iterator positioned at it — never with the tuple
as a single argument. -/
theorem C3_tuple_unpacked {T : Type} (op : List Elem → T) (fields : List Elem) :
    parallel_for_inner op (Elem.tup fields) = some (op fields)
    ∧ parallel_for_inner op (Elem.ind (Elem.tup fields)) = some (op fields) := by
  exact ⟨rfl, by simp [parallel_for_inner, Elem.isTuple]⟩

/-- Claim C4: for every Indirect-reference element wrapping a non-tuple
inner value, the Shape Resolver performs exactly one dereference and the
terminal invocation receives the pointee as the single argument; the
resolver is a pure stateless function, so no dereferenced value is
cached across calls. -/
theorem C4_one_dereference {T : Type} (op : List Elem → T) (e : Elem)
    (h : e.isTuple = false) :
    parallel_for_inner op (Elem.ind e) = some (op [e]) :=
  seq_invoke_nontuple op e h

/-- Operator recording the scalar payload of a single-scalar argument
list, used to observe which value an invocation received. -/
def c4_op : List Elem → Int := fun args =>
  match args with
  | [Elem.scalar n] => n
  | _ => -1

/-- Claim C4 (witness): an iterator over the single-element collection
[7] makes the resolver invoke op(7). -/
theorem C4_one_dereference_witness :
    (Elem.scalar 7).isTuple = false
    ∧ parallel_for_inner c4_op (Elem.ind (Elem.scalar 7)) = some (c4_op [Elem.scalar 7])
    ∧ parallel_for_inner c4_op (Elem.ind (Elem.scalar 7)) = some 7 :=
  ⟨rfl, C4_one_dereference c4_op (Elem.scalar 7) rfl, by decide⟩

/-- Operator recording the scalar payload of a single-scalar argument
list, used to observe whether a nested indirection was fully
dereferenced. -/
def c5_op : List Elem → Int := fun args =>
  match args with
  | [Elem.scalar n] => n
  | _ => -1

/-- Claim C5 (counterexample): on an indirect reference whose pointee is
itself an indirect reference to the scalar 7, the Shape Resolver does
not re-classify recursively down to the scalar: the invocation is not
the operator applied to the fully dereferenced value 7. -/
theorem C5_counterexample :
    parallel_for_inner c5_op (Elem.ind (Elem.ind (Elem.scalar 7)))
      ≠ some (c5_op [Elem.scalar 7]) := by
  decide

/-- Claim C5 (amended): for every Indirect-reference element whose
dereferenced inner value is itself an Indirect reference, the Shape
Resolver performs exactly one dereference and passes the still-indirect
inner value directly to the operator as its single argument; recursive
re-classification happens only when the pointee is a Tuple-like
aggregate, never a second dereference. -/
theorem C5_amended_one_dereference_only {T : Type} (op : List Elem → T) (e : Elem) :
    parallel_for_inner op (Elem.ind (Elem.ind e)) = some (op [Elem.ind e]) := by
  simp [parallel_for_inner, Elem.isTuple]

/-- Claim C1: for every range whose is_divisible() returns false, run
traverses the range in order on the calling thread, invoking the
operator through the Shape Resolver on the iterator at each position,
and the performed invocations are exactly those of a plain ordered
traversal with direct operator application, whichever backend is
compiled in. -/
theorem C1_sequential_path {T : Type} (cfg : Cfg) (chunks : List (List Elem))
    (range : Range) (op : List Elem → T) (h : range.is_divisible = false) :
    parallel_for cfg chunks range op = parallel_for_sequential range.elems op
    ∧ parallel_for cfg chunks range op = plain_ordered_traversal op range.elems := by
  constructor
  · simp [parallel_for, h]
  · simp [parallel_for, h, parallel_for_sequential_eq]

/-- Operator recording how many positional arguments an invocation
received. -/
def c1_op : List Elem → Nat := fun args => args.length

/-- A non-divisible range holding one element of each shape. -/
def c1_range : Range :=
  ⟨[Elem.scalar 1, Elem.tup [Elem.scalar 2, Elem.scalar 3], Elem.ind (Elem.scalar 4)],
   false⟩

/-- Claim C1 (witness): on a concrete non-divisible mixed-shape range
the router performs exactly the plain ordered traversal: one argument
for the scalar, the two unpacked fields for the tuple, one argument for
the indirect element. -/
theorem C1_sequential_path_witness :
    parallel_for Cfg.tbb [] c1_range c1_op = plain_ordered_traversal c1_op c1_range.elems
    ∧ plain_ordered_traversal c1_op c1_range.elems = [some 1, some 2, some 1] :=
  ⟨(C1_sequential_path Cfg.tbb [] c1_range c1_op rfl).2, by decide⟩

/-- Operator recording how many positional arguments an invocation
received. -/
def c9_op : List Elem → Nat := fun args => args.length

/-- A divisible one-element range, in a build with no parallel backend. -/
def c9_range : Range := ⟨[Elem.scalar 0], true⟩

/-- Claim C9 (counterexample): with no parallel backend compiled in and
a divisible range, run performs zero operator invocations — the
divisible branch is empty — and in particular does not fall back to the
sequential traversal; the code has no error channel, so the skip is
silent. -/
theorem C9_counterexample :
    parallel_for Cfg.nobackend [] c9_range c9_op = []
    ∧ parallel_for Cfg.nobackend [] c9_range c9_op
        ≠ parallel_for_sequential c9_range.elems c9_op := by
  exact ⟨rfl, by decide⟩

/-- Claim C9 (amended): when no parallel backend is configured and
range.is_divisible() returns true, run silently performs zero operator
invocations over the range: the preprocessor leaves the divisible branch
empty, with neither a sequential fallback nor a reported configuration
error. -/
theorem C9_amended_silent_skip {T : Type} (chunks : List (List Elem)) (range : Range)
    (op : List Elem → T) (h : range.is_divisible = true) :
    parallel_for Cfg.nobackend chunks range op = [] := by
  simp [parallel_for, h]

/-- Claim C9 (amended, witness): the divisible one-element range is
silently skipped. -/
theorem C9_amended_silent_skip_witness :
    parallel_for Cfg.nobackend [] c9_range c9_op = [] :=
  C9_amended_silent_skip [] c9_range c9_op rfl

/-- Operator recording how many positional arguments an invocation
received. -/
def c6_op : List Elem → Nat := fun args => args.length

/-- A divisible range whose only element is the tuple (3, "x"). -/
def c6_range : Range := ⟨[Elem.tup [Elem.scalar 3, Elem.str "x"]], true⟩

/-- Claim C6 (counterexample): under the HPX backend the parallel path
hands the operator directly to for_each, so on a divisible range whose
only element is the tuple (3, "x") the operator receives one tuple
argument, while the sequential path's Shape Resolver invocation passes
the two unpacked fields: the invocations differ. -/
theorem C6_counterexample :
    parallel_for Cfg.hpx [c6_range.elems] c6_range c6_op
      ≠ parallel_for_sequential c6_range.elems c6_op := by
  decide

/-- Claim C6 (amended): when the range reports itself divisible, run
hands it to the configured backend; under TBB the backend invokes the
sequential path on each sub-range of its partition, so the invocations
are exactly the sequential path's shape-adapted invocations, while
under HPX the backend applies the operator directly to each element,
which coincides with the sequential path exactly when no element is
tuple-like. -/
theorem C6_amended_backend_paths {T : Type} (chunks : List (List Elem)) (range : Range)
    (op : List Elem → T) (h : range.is_divisible = true) :
    (chunks.flatten = range.elems →
      parallel_for Cfg.tbb chunks range op = parallel_for_sequential range.elems op)
    ∧ ((∀ e ∈ range.elems, e.isTuple = false) →
      parallel_for Cfg.hpx chunks range op = parallel_for_sequential range.elems op) := by
  constructor
  · intro hc
    simp only [parallel_for, h, if_true, parallel_for_sequential, ← hc,
      List.map_flatten]
  · intro hnt
    simp only [parallel_for, h, if_true, parallel_for_sequential]
    exact List.map_congr_left
      (fun e he => (seq_invoke_nontuple op e (hnt e he)).symm)

/-- A backend partition of a two-scalar divisible range into singleton
sub-ranges. -/
def c6w_chunks : List (List Elem) := [[Elem.scalar 1], [Elem.scalar 2]]

/-- The divisible two-scalar range the partition above splits. -/
def c6w_range : Range := ⟨c6w_chunks.flatten, true⟩

/-- Claim C6 (amended, witness): on a divisible all-scalar range both
backends perform exactly the sequential path's invocations. -/
theorem C6_amended_backend_paths_witness :
    parallel_for Cfg.tbb c6w_chunks c6w_range c6_op
        = parallel_for_sequential c6w_range.elems c6_op
    ∧ parallel_for Cfg.hpx c6w_chunks c6w_range c6_op
        = parallel_for_sequential c6w_range.elems c6_op :=
  ⟨(C6_amended_backend_paths c6w_chunks c6w_range c6_op rfl).1 rfl,
   (C6_amended_backend_paths c6w_chunks c6w_range c6_op rfl).2 (by decide)⟩

/-- Operator returning the payload of a single-scalar argument list,
the identity on the scalars a reduction range carries. -/
def c2_op : List Elem → Int := fun args =>
  match args with
  | [Elem.scalar n] => n
  | _ => 0

/-- A two-block backend partition of the 129 scalars 0..128. -/
def c2_chunks : List (List Elem) :=
  [(List.range 64).map (fun n => Elem.scalar (Int.ofNat n)),
   (List.range' 64 65).map (fun n => Elem.scalar (Int.ofNat n))]

/-- A non-divisible range of the 129 scalars 0..128 — above the HPX
threshold of 128 elements. -/
def c2_big_range : Range := ⟨c2_chunks.flatten, false⟩

set_option maxRecDepth 8192 in
/-- Claim C2 (counterexample): under the HPX configuration
run_reduce is gated on the element count, not on the divisibility flag:
on this non-divisible range of 129 scalars, reduced with the
non-associative a - b from 0 under a two-block backend partition, the
result is not the strict left fold. -/
theorem C2_counterexample :
    c2_big_range.is_divisible = false
    ∧ c2_big_range.size = 129
    ∧ parallel_reduce Cfg.hpx c2_chunks c2_big_range c2_op (fun a b => a - b) 0
        ≠ some (spec_left_fold c2_op (fun a b => a - b) 0 c2_big_range.elems) := by
  exact ⟨rfl, by decide, by decide⟩

/-- Claim C2 (amended): run_reduce returns the strict left fold — an
accumulator starting at init, updated in traversal order to
reduce(accumulator, invoke_adapted(op, iterator_at_position)) — for
every range whose is_divisible() returns false under the
divisibility-gated TBB configuration, and under the size-gated HPX
configuration whenever the element count is at most 128; under HPX a
non-divisible range with more than 128 elements takes the parallel path
instead.  In particular for the range [0,1,2,3,4,5] with op = identity,
reduce = add, init = 0 the result is 15. -/
theorem C2_amended_sequential_left_fold {T : Type} (cfg : Cfg)
    (chunks : List (List Elem)) (range : Range) (op : List Elem → T)
    (reduce : T → T → T) (init : T) (hdiv : range.is_divisible = false)
    (hcfg : cfg = Cfg.tbb ∨ (cfg = Cfg.hpx ∧ range.size ≤ 128)) :
    parallel_reduce cfg chunks range op reduce init
      = some (spec_left_fold op reduce init range.elems) := by
  rcases hcfg with h | ⟨h, hsize⟩
  · subst h
    simp [parallel_reduce, hdiv, parallel_for_sequential_reduce_eq]
  · subst h
    have hgt : ¬ range.size > 128 := by omega
    simp [parallel_reduce, hgt, parallel_for_sequential_reduce_eq]

/-- The non-divisible range [0,1,2,3,4,5] of the claim's concrete
scenario. -/
def c2_range : Range :=
  ⟨[Elem.scalar 0, Elem.scalar 1, Elem.scalar 2, Elem.scalar 3, Elem.scalar 4,
    Elem.scalar 5], false⟩

/-- Claim C2 (amended, witness): the concrete scenario — range
[0,1,2,3,4,5], non-divisible, op = identity, reduce = add, init = 0 —
yields 15. -/
theorem C2_amended_sequential_left_fold_witness :
    parallel_reduce Cfg.tbb [] c2_range c2_op (fun a b => a + b) 0 = some 15 := by
  rw [C2_amended_sequential_left_fold Cfg.tbb [] c2_range c2_op (fun a b => a + b) 0 rfl
    (Or.inl rfl)]
  decide

/-- Claim C7: for every associative reduce with init a true (two-sided)
identity, run_reduce equals the sequential left-fold result whatever the
range's divisibility and whatever partition the configured backend
chooses for it, under either backend configuration. -/
theorem C7_reduction_identity_law {T : Type} (cfg : Cfg) (chunks : List (List Elem))
    (range : Range) (op : List Elem → T) (reduce : T → T → T) (init : T)
    (hassoc : ∀ a b c, reduce (reduce a b) c = reduce a (reduce b c))
    (hleft : ∀ a, reduce init a = a) (hright : ∀ a, reduce a init = a)
    (hchunks : chunks.flatten = range.elems)
    (hcfg : cfg ≠ Cfg.nobackend) :
    parallel_reduce cfg chunks range op reduce init
      = some (spec_left_fold op reduce init range.elems) := by
  cases cfg with
  | nobackend => exact absurd rfl hcfg
  | tbb =>
      cases hdiv : range.is_divisible with
      | false => simp [parallel_reduce, hdiv, parallel_for_sequential_reduce_eq]
      | true =>
          simp only [parallel_reduce, hdiv, if_true,
            parallel_for_sequential_reduce_eq, list_mapM_some, Option.map_some']
          refine congrArg some ?_
          have h1 : chunks.map (fun sub => spec_left_fold op reduce init sub)
              = (chunks.map (fun c => c.map (fun e => direct_apply op e))).map
                  (fun c => c.foldl reduce init) := by
            simp [spec_left_fold_eq_foldl_map, List.map_map, Function.comp]
          rw [h1, tbb_join_eq reduce init hassoc hleft hright, ← List.map_flatten,
            hchunks, spec_left_fold_eq_foldl_map]
  | hpx =>
      cases hgt : decide (range.size > 128) with
      | false =>
          have hle : ¬ range.size > 128 := of_decide_eq_false hgt
          simp [parallel_reduce, hle, parallel_for_sequential_reduce_eq]
      | true =>
          have hgt' : range.size > 128 := of_decide_eq_true hgt
          simp only [parallel_reduce, if_pos hgt', hpx_transform_eq, list_mapM_some,
            Option.map_some']
          refine congrArg some ?_
          rw [hpx_generalized_sum_eq reduce init hassoc, ← List.map_flatten,
            hchunks, spec_left_fold_eq_foldl_map]

/-- Operator returning the payload of a single-scalar argument list. -/
def c7_op : List Elem → Int := fun args =>
  match args with
  | [Elem.scalar n] => n
  | _ => 0

/-- A backend partition of the divisible range [1, 2, 3] into the blocks
[1] and [2, 3]. -/
def c7_chunks : List (List Elem) := [[Elem.scalar 1], [Elem.scalar 2, Elem.scalar 3]]

/-- The divisible range [1, 2, 3] that the partition above splits. -/
def c7_range : Range := ⟨c7_chunks.flatten, true⟩

/-- Claim C7 (witness): reducing the divisible range [1, 2, 3] with the
associative addition and its identity 0 under a two-block partition
yields the sequential left-fold result 6. -/
theorem C7_reduction_identity_law_witness :
    parallel_reduce Cfg.tbb c7_chunks c7_range c7_op (fun a b => a + b) 0 = some 6 := by
  rw [C7_reduction_identity_law Cfg.tbb c7_chunks c7_range c7_op (fun a b => a + b) 0
    (fun a b c => Int.add_assoc a b c) (fun a => Int.zero_add a)
    (fun a => Int.add_zero a) rfl (by decide)]
  decide

/-- Claim C8: under the size-threshold HPX backend policy, run_reduce
performs the sequential left fold whenever the range's element count is
at most 128, whatever the divisibility flag reports: the parallel
reduction is gated on the element count alone. -/
theorem C8_hpx_size_threshold {T : Type} (chunks : List (List Elem)) (range : Range)
    (op : List Elem → T) (reduce : T → T → T) (init : T)
    (h : range.size ≤ 128) :
    parallel_reduce Cfg.hpx chunks range op reduce init
      = some (spec_left_fold op reduce init range.elems) := by
  have hgt : ¬ range.size > 128 := by omega
  simp [parallel_reduce, hgt, parallel_for_sequential_reduce_eq]

/-- Operator returning the payload of a single-scalar argument list. -/
def c8_op : List Elem → Int := fun args =>
  match args with
  | [Elem.scalar n] => n
  | _ => 0

/-- A divisible two-scalar range, below the HPX size threshold. -/
def c8_range : Range := ⟨[Elem.scalar 1, Elem.scalar 2], true⟩

/-- Claim C8 (witness): a divisible range of two scalars is still
reduced sequentially under HPX — the threshold, not the divisibility
flag, decides — and 1 + 2 from 0 gives 3. -/
theorem C8_hpx_size_threshold_witness :
    c8_range.is_divisible = true
    ∧ parallel_reduce Cfg.hpx [] c8_range c8_op (fun a b => a + b) 0 = some 3 := by
  refine ⟨rfl, ?_⟩
  rw [C8_hpx_size_threshold [] c8_range c8_op (fun a b => a + b) 0 (by decide)]
  decide

/-- Claim C10: in the HPX parallel-reduction path, wrapping the
already-dereferenced element in its address and handing it to the Shape
Resolver produces the same operator invocation as the sequential path's
Shape Resolver applied to an iterator at that element, for every scalar
or tuple-like element: one dereference reaches the element, tuples are
unpacked into positional arguments, scalars are passed as the single
argument. -/
theorem C10_address_wrap_equivalent {T : Type} (op : List Elem → T) (e : Elem)
    (h : e.isTuple = true ∨ ∃ n, e = Elem.scalar n) :
    hpx_transform op e = seq_invoke op e
    ∧ (∀ fs, e = Elem.tup fs → hpx_transform op e = some (op fs))
    ∧ (∀ n, e = Elem.scalar n → hpx_transform op e = some (op [Elem.scalar n])) := by
  refine ⟨rfl, ?_, ?_⟩
  · intro fs hfs
    subst hfs
    simp [hpx_transform, parallel_for_inner, Elem.isTuple]
  · intro n hn
    subst hn
    simp [hpx_transform, parallel_for_inner, Elem.isTuple]

/-- Operator recording how many positional arguments an invocation
received. -/
def c10_op : List Elem → Nat := fun args => args.length

/-- Claim C10 (witness): the address-wrapped tuple (3, "x") is unpacked
into its two fields exactly as the sequential path unpacks it, and the
address-wrapped scalar 7 is passed as the single argument. -/
theorem C10_address_wrap_equivalent_witness :
    hpx_transform c10_op (Elem.tup [Elem.scalar 3, Elem.str "x"])
        = seq_invoke c10_op (Elem.tup [Elem.scalar 3, Elem.str "x"])
    ∧ hpx_transform c10_op (Elem.tup [Elem.scalar 3, Elem.str "x"])
        = some (c10_op [Elem.scalar 3, Elem.str "x"])
    ∧ hpx_transform c10_op (Elem.scalar 7) = some (c10_op [Elem.scalar 7]) :=
  ⟨(C10_address_wrap_equivalent c10_op (Elem.tup [Elem.scalar 3, Elem.str "x"])
      (Or.inl rfl)).1,
   (C10_address_wrap_equivalent c10_op (Elem.tup [Elem.scalar 3, Elem.str "x"])
      (Or.inl rfl)).2.1 _ rfl,
   (C10_address_wrap_equivalent c10_op (Elem.scalar 7) (Or.inr ⟨7, rfl⟩)).2.2 7 rfl⟩

end NwGraph
